import Mathlib

/-!
Verification development for the Cedra biquadratic solver
(`cedra_biquadratic.py`, class `CedraSolver`).

The solver works on IEEE doubles; here it is shallowly embedded over the
exact real numbers `ℝ`: `math.sqrt` becomes `Real.sqrt`,
`math.pow(x, 0.25)` becomes `Real.sqrt (Real.sqrt x)` (the two agree for
nonnegative `x`), Python's `sorted` becomes `List.insertionSort (· ≤ ·)`,
and float literals such as `1e-15` become the corresponding real literals.
Inputs are modelled by `Fl`, a real number tagged as finite, or one of the
non-finite values NaN / +inf / -inf, so that the `math.isfinite`
validation is expressible.  The two diagnostic counters are modelled by
explicit state passing of a `CedraSolver` record.

Partial primitive operations (`math.sqrt` of a negative number,
`math.pow` with negative base and fractional exponent, division by zero
all raise in Python) are additionally modelled by `Option`-valued
"checked" variants, used to reason about which error branches are
reachable.
-/

/-- A Python float argument: a finite real, or NaN, or an infinity. -/
inductive Fl where
  | num (x : ℝ)
  | nan
  | inf
  | ninf

/-- Model of `math.isfinite`. -/
def Fl.isFinite : Fl → Bool
  | .num _ => true
  | _ => false

/-- The real value carried by a finite float (junk value 0 otherwise;
the solver never does arithmetic on non-finite inputs). -/
noncomputable def Fl.val : Fl → ℝ
  | .num x => x
  | _ => 0

/-- Solver state: the two diagnostic counters of `CedraSolver.__init__`. -/
structure CedraSolver where
  solutions_count : ℕ
  special_cases_count : ℕ

/-- `CedraSolver._detect_special_cases`.  Returns the updated state and
`some roots` when a special case fired, `none` to fall through to the
general method.  The counter is incremented as soon as `|a| ≥ 1e-15`,
before any of the three patterns is tested, exactly as in the source. -/
noncomputable def CedraSolver.detect_special_cases (s : CedraSolver) (a b c : ℝ) :
    CedraSolver × Option (List ℝ) :=
  if |a| < 1e-15 then (s, none)
  else
    let s2 := { s with special_cases_count := s.special_cases_count + 1 }
    -- Case 1: c = 0 -> x²(ax² + b) = 0
    if |c| < 1e-15 then
      if |b| < 1e-15 then (s2, some [0])
      else if 1e-15 < -b / a then
        let sqrt_val := Real.sqrt (-b / a)
        (s2, some (List.insertionSort (· ≤ ·) [-sqrt_val, 0, sqrt_val]))
      else (s2, some [0])
    -- Case 2: b = 0 -> ax⁴ + c = 0
    else if |b| < 1e-15 then
      let ratio := -c / a
      if ratio < -1e-15 then (s2, some [])
      else if |ratio| < 1e-15 then (s2, some [0])
      else
        let root := Real.sqrt (Real.sqrt ratio)
        (s2, some (List.insertionSort (· ≤ ·) [-root, root]))
    -- Case 3: perfect square form (discriminant = 0)
    else
      let discriminant := b * b - 4 * a * c
      if |discriminant| < 1e-15 * max (max (b * b) |4 * a * c|) 1 then
        let x_squared := -b / (2 * a)
        if 1e-15 < x_squared then
          let x_val := Real.sqrt x_squared
          (s2, some (List.insertionSort (· ≤ ·) [-x_val, x_val]))
        else if |x_squared| ≤ 1e-15 then (s2, some [0])
        else (s2, some [])
      else (s2, none)

/-- The duplicate-removal loop at the end of `_solve_general_case`:
`acc` is the `unique_solutions` accumulator, the second list the
remaining iterates of `sorted(solutions)`.  A candidate is kept exactly
when no already-kept value is strictly within `1e-14` of it. -/
noncomputable def remove_duplicates : List ℝ → List ℝ → List ℝ
  | acc, [] => acc
  | acc, sol :: rest =>
    if ∃ e ∈ acc, |sol - e| < 1e-14 then remove_duplicates acc rest
    else remove_duplicates (acc ++ [sol]) rest

/-- Body of the `for y in [y1, y2]` loop of `_solve_general_case`:
convert one quadratic root `y` back to `x` candidates. -/
noncomputable def back_substitute (y : ℝ) : List ℝ :=
  if 1e-14 < y then [Real.sqrt y, -Real.sqrt y]
  else if |y| ≤ 1e-14 then [0]
  else []

/-- `CedraSolver._solve_general_case` (pure: it never touches the
counters).  Citardauq formulas, back substitution, sort, deduplicate. -/
noncomputable def solve_general_case (a b c : ℝ) : List ℝ :=
  let discriminant := b * b - 4 * a * c
  if discriminant < 0 then []
  else
    let sqrt_discriminant := Real.sqrt discriminant
    let y1 := if 0 ≤ b then (-b - sqrt_discriminant) / (2 * a)
              else (-b + sqrt_discriminant) / (2 * a)
    let y2 := if 0 ≤ b then
                (if 1e-15 < sqrt_discriminant then 2 * c / (-b - sqrt_discriminant) else 0)
              else
                (if 1e-15 < sqrt_discriminant then 2 * c / (-b + sqrt_discriminant) else 0)
    let solutions := back_substitute y1 ++ back_substitute y2
    remove_duplicates [] (List.insertionSort (· ≤ ·) solutions)

/-- `CedraSolver.solve`: bump the invocation counter, validate, try the
special cases, otherwise run the general method.  Returns the new state
and the root list. -/
noncomputable def CedraSolver.solve (s : CedraSolver) (a b c : Fl) :
    CedraSolver × List ℝ :=
  let s1 := { s with solutions_count := s.solutions_count + 1 }
  if !(a.isFinite && b.isFinite && c.isFinite) then (s1, [])
  else if |a.val| < 1e-16 then (s1, [])
  else
    match s1.detect_special_cases a.val b.val c.val with
    | (s2, some result) => (s2, result)
    | (s2, none) => (s2, solve_general_case a.val b.val c.val)

/-- The record returned by `CedraSolver.get_stats`. -/
structure SolverStats where
  total_solutions : ℕ
  special_cases : ℕ
  special_case_rate : ℝ

/-- `CedraSolver.get_stats`. -/
noncomputable def CedraSolver.get_stats (s : CedraSolver) : SolverStats :=
  { total_solutions := s.solutions_count
    special_cases := s.special_cases_count
    special_case_rate :=
      (s.special_cases_count : ℝ) / ((max 1 s.solutions_count : ℕ) : ℝ) * 100 }

/-- `math.sqrt`, which raises on a negative argument. -/
noncomputable def sqrtChecked (x : ℝ) : Option ℝ :=
  if 0 ≤ x then some (Real.sqrt x) else none

/-- Float division, which raises on a zero denominator. -/
noncomputable def divChecked (x y : ℝ) : Option ℝ :=
  if y = 0 then none else some (x / y)

/-- `math.pow(x, 0.25)`, which raises on a negative base. -/
noncomputable def pow4Checked (x : ℝ) : Option ℝ :=
  if 0 ≤ x then some (Real.sqrt (Real.sqrt x)) else none

/-- `_detect_special_cases` with every partial primitive operation
checked: `none` means the Python code raises an exception. -/
noncomputable def CedraSolver.detect_special_casesChecked (s : CedraSolver) (a b c : ℝ) :
    Option (CedraSolver × Option (List ℝ)) :=
  if |a| < 1e-15 then some (s, none)
  else
    let s2 := { s with special_cases_count := s.special_cases_count + 1 }
    if |c| < 1e-15 then
      if |b| < 1e-15 then some (s2, some [0])
      else
        (divChecked (-b) a).bind fun q =>
          if 1e-15 < q then
            (sqrtChecked q).bind fun sqrt_val =>
              some (s2, some (List.insertionSort (· ≤ ·) [-sqrt_val, 0, sqrt_val]))
          else some (s2, some [0])
    else if |b| < 1e-15 then
      (divChecked (-c) a).bind fun ratio =>
        if ratio < -1e-15 then some (s2, some [])
        else if |ratio| < 1e-15 then some (s2, some [0])
        else
          (pow4Checked ratio).bind fun root =>
            some (s2, some (List.insertionSort (· ≤ ·) [-root, root]))
    else
      let discriminant := b * b - 4 * a * c
      if |discriminant| < 1e-15 * max (max (b * b) |4 * a * c|) 1 then
        (divChecked (-b) (2 * a)).bind fun x_squared =>
          if 1e-15 < x_squared then
            (sqrtChecked x_squared).bind fun x_val =>
              some (s2, some (List.insertionSort (· ≤ ·) [-x_val, x_val]))
          else if |x_squared| ≤ 1e-15 then some (s2, some [0])
          else some (s2, some [])
      else some (s2, none)

/-- The loop body of the back-substitution with its square root checked. -/
noncomputable def back_substituteChecked (y : ℝ) : Option (List ℝ) :=
  if 1e-14 < y then
    (sqrtChecked y).bind fun x_val => some [x_val, -x_val]
  else if |y| ≤ 1e-14 then some [0]
  else some []

/-- `_solve_general_case` with every partial primitive operation
checked. -/
noncomputable def solve_general_caseChecked (a b c : ℝ) : Option (List ℝ) :=
  let discriminant := b * b - 4 * a * c
  if discriminant < 0 then some []
  else
    (sqrtChecked discriminant).bind fun sqrt_discriminant =>
      (if 0 ≤ b then divChecked (-b - sqrt_discriminant) (2 * a)
       else divChecked (-b + sqrt_discriminant) (2 * a)).bind fun y1 =>
        (if 0 ≤ b then
           (if 1e-15 < sqrt_discriminant then divChecked (2 * c) (-b - sqrt_discriminant)
            else some 0)
         else
           (if 1e-15 < sqrt_discriminant then divChecked (2 * c) (-b + sqrt_discriminant)
            else some 0)).bind fun y2 =>
          (back_substituteChecked y1).bind fun l1 =>
            (back_substituteChecked y2).bind fun l2 =>
              some (remove_duplicates [] (List.insertionSort (· ≤ ·) (l1 ++ l2)))

/-- `solve` with every partial primitive operation checked: returns
`none` exactly when the Python call would raise an exception. -/
noncomputable def CedraSolver.solveChecked (s : CedraSolver) (a b c : Fl) :
    Option (CedraSolver × List ℝ) :=
  let s1 := { s with solutions_count := s.solutions_count + 1 }
  if !(a.isFinite && b.isFinite && c.isFinite) then some (s1, [])
  else if |a.val| < 1e-16 then some (s1, [])
  else
    (s1.detect_special_casesChecked a.val b.val c.val).bind fun r =>
      match r with
      | (s2, some result) => some (s2, result)
      | (s2, none) =>
        (solve_general_caseChecked a.val b.val c.val).bind fun l => some (s2, l)

/-- States of the solver reachable from a freshly constructed
`CedraSolver()` by any sequence of `solve` calls. -/
inductive ReachableState : CedraSolver → Prop
  | init : ReachableState (CedraSolver.mk 0 0)
  | step (s : CedraSolver) (a b c : Fl) (h : ReachableState s) :
      ReachableState ((s.solve a b c).1)

/-! ### Basic facts about the embedding -/

/-- The root list produced by `_detect_special_cases` does not depend on
the counter state. -/
lemma detect_snd_const (s t : CedraSolver) (a b c : ℝ) :
    (s.detect_special_cases a b c).2 = (t.detect_special_cases a b c).2 := by
  simp only [CedraSolver.detect_special_cases]
  split_ifs <;> rfl

/-- `_detect_special_cases` never touches the invocation counter. -/
lemma detect_fst_solutions (s : CedraSolver) (a b c : ℝ) :
    (s.detect_special_cases a b c).1.solutions_count = s.solutions_count := by
  simp only [CedraSolver.detect_special_cases]
  split_ifs <;> rfl

/-- The special-case counter after `_detect_special_cases`: bumped by one
exactly when `|a| ≥ 1e-15`. -/
lemma detect_fst_special (s : CedraSolver) (a b c : ℝ) :
    (s.detect_special_cases a b c).1.special_cases_count =
      s.special_cases_count + if 1e-15 ≤ |a| then 1 else 0 := by
  simp only [CedraSolver.detect_special_cases]
  rcases lt_or_le |a| 1e-15 with h | h
  · rw [if_pos h, if_neg (not_le.mpr h)]
    rfl
  · rw [if_neg (not_lt.mpr h), if_pos h]
    split_ifs <;> rfl

/-- Everything already accumulated survives the deduplication loop. -/
lemma remove_duplicates_acc_mem : ∀ (l acc : List ℝ), ∀ x ∈ acc,
    x ∈ remove_duplicates acc l := by
  intro l
  induction l with
  | nil => intro acc x hx; simpa [remove_duplicates] using hx
  | cons sol rest ih =>
    intro acc x hx
    unfold remove_duplicates
    split_ifs with h
    · exact ih acc x hx
    · exact ih (acc ++ [sol]) x (List.mem_append_left _ hx)

/-- The deduplication loop only returns elements of its two inputs. -/
lemma remove_duplicates_mem : ∀ (l acc : List ℝ), ∀ x ∈ remove_duplicates acc l,
    x ∈ acc ∨ x ∈ l := by
  intro l
  induction l with
  | nil => intro acc x hx; exact Or.inl (by simpa [remove_duplicates] using hx)
  | cons sol rest ih =>
    intro acc x hx
    unfold remove_duplicates at hx
    split_ifs at hx with h
    · rcases ih acc x hx with h1 | h1
      · exact Or.inl h1
      · exact Or.inr (List.mem_cons_of_mem _ h1)
    · rcases ih (acc ++ [sol]) x hx with h1 | h1
      · rcases List.mem_append.mp h1 with h2 | h2
        · exact Or.inl h2
        · exact Or.inr (by simp [List.mem_singleton.mp h2])
      · exact Or.inr (List.mem_cons_of_mem _ h1)

/-- Every processed candidate is within `1e-14` of some kept value. -/
lemma remove_duplicates_cover : ∀ (l acc : List ℝ), ∀ z ∈ l,
    ∃ k ∈ remove_duplicates acc l, |z - k| < 1e-14 := by
  intro l
  induction l with
  | nil => intro acc z hz; cases hz
  | cons sol rest ih =>
    intro acc z hz
    unfold remove_duplicates
    split_ifs with h
    · rcases List.mem_cons.mp hz with rfl | hz'
      · obtain ⟨e, he, hlt⟩ := h
        exact ⟨e, remove_duplicates_acc_mem rest acc e he, hlt⟩
      · exact ih acc z hz'
    · rcases List.mem_cons.mp hz with rfl | hz'
      · refine ⟨z, remove_duplicates_acc_mem rest _ z (List.mem_append_right _ ?_), by norm_num⟩
        exact List.mem_singleton_self z
      · exact ih (acc ++ [sol]) z hz'

/-- On a sorted input the deduplication loop produces a strictly
ascending list with pairwise gaps of at least `1e-14`. -/
lemma remove_duplicates_pairwise : ∀ (l acc : List ℝ),
    l.Sorted (· ≤ ·) →
    acc.Pairwise (fun x y => x < y ∧ 1e-14 ≤ y - x) →
    (∀ e ∈ acc, ∀ z ∈ l, e ≤ z) →
    (remove_duplicates acc l).Pairwise (fun x y => x < y ∧ 1e-14 ≤ y - x) := by
  intro l
  induction l with
  | nil => intro acc _ hacc _; simpa [remove_duplicates] using hacc
  | cons sol rest ih =>
    intro acc hsort hacc hinv
    have hsort' := (List.sorted_cons.mp hsort).2
    have hhead := (List.sorted_cons.mp hsort).1
    unfold remove_duplicates
    split_ifs with h
    · exact ih acc hsort' hacc (fun e he z hz => hinv e he z (List.mem_cons_of_mem _ hz))
    · refine ih (acc ++ [sol]) hsort' ?_ ?_
      · refine List.pairwise_append.mpr ⟨hacc, List.pairwise_singleton _ _, ?_⟩
        intro e he y hy
        have hy' : y = sol := List.mem_singleton.mp hy
        push_neg at h
        have hle : e ≤ sol := hinv e he sol (List.mem_cons_self _ _)
        have hge := h e he
        rw [abs_of_nonneg (by linarith)] at hge
        rw [hy']
        exact ⟨by linarith, by linarith⟩
      · intro e he z hz
        rcases List.mem_append.mp he with h1 | h1
        · exact hinv e h1 z (List.mem_cons_of_mem _ hz)
        · have h2 : e = sol := List.mem_singleton.mp h1
          subst h2
          exact hhead z hz

/-- Sorting the pair `[-r, r]` for nonnegative `r`. -/
lemma insertionSort_pair (r : ℝ) (hr : 0 ≤ r) :
    List.insertionSort (· ≤ ·) [-r, r] = [-r, r] := by
  have h : (-r) ≤ r := neg_le_self hr
  simp [List.insertionSort, List.orderedInsert, h, hr]

/-- Sorting the triple `[-r, 0, r]` for nonnegative `r`. -/
lemma insertionSort_triple (r : ℝ) (hr : 0 ≤ r) :
    List.insertionSort (· ≤ ·) [-r, 0, r] = [-r, 0, r] := by
  have h2 : (-r) ≤ 0 := neg_nonpos.mpr hr
  simp [List.insertionSort, List.orderedInsert, hr, h2]

/-- A quadratic-formula root is an exact root of `a·y² + b·y + c`:
`t` is either square root of the discriminant. -/
lemma quad_root_vertex (a b c t : ℝ) (ha : a ≠ 0) (ht : t ^ 2 = b * b - 4 * a * c) :
    a * ((-b + t) / (2 * a)) ^ 2 + b * ((-b + t) / (2 * a)) + c = 0 := by
  have h2 : (2 * a) ≠ 0 := mul_ne_zero two_ne_zero ha
  have key : a * (-b + t) ^ 2 + b * (-b + t) * (2 * a) + c * (2 * a) ^ 2 = 0 := by
    linear_combination a * ht
  have expand : a * ((-b + t) / (2 * a)) ^ 2 + b * ((-b + t) / (2 * a)) + c
      = (a * (-b + t) ^ 2 + b * (-b + t) * (2 * a) + c * (2 * a) ^ 2) / (2 * a) ^ 2 := by
    field_simp
    ring
  rw [expand, key, zero_div]

/-- A Citardauq-formula root is an exact root of `a·y² + b·y + c`. -/
lemma quad_root_citardauq (a b c t : ℝ) (he : -b + t ≠ 0)
    (ht : t ^ 2 = b * b - 4 * a * c) :
    a * (2 * c / (-b + t)) ^ 2 + b * (2 * c / (-b + t)) + c = 0 := by
  have key : a * (2 * c) ^ 2 + b * (2 * c) * (-b + t) + c * (-b + t) ^ 2 = 0 := by
    linear_combination c * ht
  have expand : a * (2 * c / (-b + t)) ^ 2 + b * (2 * c / (-b + t)) + c
      = (a * (2 * c) ^ 2 + b * (2 * c) * (-b + t) + c * (-b + t) ^ 2) / (-b + t) ^ 2 := by
    field_simp
    ring
  rw [expand, key, zero_div]

/-! ### Unfolding lemmas for `solve` -/

/-- On invalid input (a non-finite argument or `|a| < 1e-16`) `solve`
only bumps the invocation counter and returns no roots. -/
lemma solve_invalid (s : CedraSolver) (a b c : Fl)
    (h : (a.isFinite && b.isFinite && c.isFinite) = false ∨ |a.val| < 1e-16) :
    s.solve a b c = ({ s with solutions_count := s.solutions_count + 1 }, []) := by
  rcases h with h | h
  · simp [CedraSolver.solve, h]
  · simp only [CedraSolver.solve]
    rcases hb : (a.isFinite && b.isFinite && c.isFinite) with _ | _
    · simp
    · simp [h]

/-- On a validated call, the final state is the one produced by
`_detect_special_cases` on the bumped state. -/
lemma solve_num_fst (s : CedraSolver) (a b c : ℝ) (hval : ¬ |a| < 1e-16) :
    (s.solve (.num a) (.num b) (.num c)).1 =
      (({ s with solutions_count := s.solutions_count + 1 } : CedraSolver).detect_special_cases
        a b c).1 := by
  simp only [CedraSolver.solve, Fl.isFinite, Fl.val]
  rw [if_neg (by simp), if_neg hval]
  rcases hd : ({ s with solutions_count := s.solutions_count + 1 } :
      CedraSolver).detect_special_cases a b c with ⟨s2, r⟩
  cases r <;> rfl

/-- On a validated call, the returned roots are the special-case result
if one fired, else the general-case result. -/
lemma solve_num_snd (s : CedraSolver) (a b c : ℝ) (hval : ¬ |a| < 1e-16) :
    (s.solve (.num a) (.num b) (.num c)).2 =
      (match ((CedraSolver.mk 0 0).detect_special_cases a b c).2 with
       | some result => result
       | none => solve_general_case a b c) := by
  rcases hd : ({ s with solutions_count := s.solutions_count + 1 } :
      CedraSolver).detect_special_cases a b c with ⟨s2, r⟩
  have h2 : ((CedraSolver.mk 0 0).detect_special_cases a b c).2 = r := by
    rw [detect_snd_const (CedraSolver.mk 0 0)
      ({ s with solutions_count := s.solutions_count + 1 } : CedraSolver), hd]
  rw [h2]
  simp only [CedraSolver.solve, Fl.isFinite, Fl.val]
  rw [if_neg (by simp), if_neg hval, hd]
  cases r <;> rfl

/-- Every call bumps the invocation counter by exactly one. -/
lemma solve_fst_solutions (s : CedraSolver) (a b c : Fl) :
    (s.solve a b c).1.solutions_count = s.solutions_count + 1 := by
  simp only [CedraSolver.solve]
  split_ifs with h1 h2
  · rfl
  · rfl
  · rcases hd : ({ s with solutions_count := s.solutions_count + 1 } :
        CedraSolver).detect_special_cases a.val b.val c.val with ⟨s2, r⟩
    have h3 : s2.solutions_count = s.solutions_count + 1 := by
      have := detect_fst_solutions
        ({ s with solutions_count := s.solutions_count + 1 } : CedraSolver) a.val b.val c.val
      rw [hd] at this
      exact this
    cases r <;> exact h3

/-- A call bumps the special-case counter by at most one. -/
lemma solve_fst_special (s : CedraSolver) (a b c : Fl) :
    (s.solve a b c).1.special_cases_count = s.special_cases_count ∨
    (s.solve a b c).1.special_cases_count = s.special_cases_count + 1 := by
  simp only [CedraSolver.solve]
  split_ifs with h1 h2
  · exact Or.inl rfl
  · exact Or.inl rfl
  · rcases hd : ({ s with solutions_count := s.solutions_count + 1 } :
        CedraSolver).detect_special_cases a.val b.val c.val with ⟨s2, r⟩
    have h3 := detect_fst_special
      ({ s with solutions_count := s.solutions_count + 1 } : CedraSolver) a.val b.val c.val
    rw [hd] at h3
    have h3' : s2.special_cases_count =
        s.special_cases_count + if 1e-15 ≤ |a.val| then 1 else 0 := h3
    have h4 : (match (s2, r) with
        | (s2, some result) => (s2, result)
        | (s2, none) => (s2, solve_general_case a.val b.val c.val)).1 = s2 := by
      cases r <;> rfl
    rw [h4, h3']
    by_cases hc : 1e-15 ≤ |a.val|
    · rw [if_pos hc]; exact Or.inr rfl
    · rw [if_neg hc]; exact Or.inl rfl

/-- `_detect_special_cases (1, 1, 1)` finds no special pattern. -/
lemma detect_one_one_one :
    ((CedraSolver.mk 0 0).detect_special_cases 1 1 1).2 = none := by
  simp only [CedraSolver.detect_special_cases]
  norm_num [max_def]

/-- `solve(1, 1, 1)` has a negative discriminant and no real roots. -/
lemma solve_one_one_one :
    ((CedraSolver.mk 0 0).solve (.num 1) (.num 1) (.num 1)).2 = [] := by
  rw [solve_num_snd _ 1 1 1 (by norm_num), detect_one_one_one]
  norm_num [solve_general_case]

/-! ### Claims C3, C5, C7, C8, C9, C10 -/

/-- Claim C3 (amended): for finite arguments, the special-case counter is
incremented by one exactly when `|a| ≥ 1e-15`; in particular it is NOT
incremented for valid inputs with `1e-16 ≤ |a| < 1e-15`, contrary to the
claim that every valid call increments it. -/
theorem C3_special_counter_iff (s : CedraSolver) (a b c : ℝ) :
    (s.solve (.num a) (.num b) (.num c)).1.special_cases_count =
      s.special_cases_count + if 1e-15 ≤ |a| then 1 else 0 := by
  by_cases hval : |a| < 1e-16
  · rw [solve_invalid s (.num a) (.num b) (.num c)
      (Or.inr (by simpa [Fl.val] using hval))]
    rw [if_neg (by intro hle; linarith)]
    rfl
  · rw [solve_num_fst s a b c hval, detect_fst_special]

/-- Claim C3, counterexample: `solve(5e-16, 1, 1)` is a valid call
(finite arguments, `|a| = 5e-16 ≥ 1e-16`), yet the special-case counter
of a fresh solver stays `0` instead of becoming `1`. -/
theorem C3_counterexample :
    (Fl.num (5e-16 : ℝ)).isFinite = true ∧ 1e-16 ≤ |(5e-16 : ℝ)| ∧
    ((CedraSolver.mk 0 0).solve (.num 5e-16) (.num 1) (.num 1)).1.special_cases_count = 0 := by
  have habs : |(5e-16 : ℝ)| = 5e-16 := abs_of_pos (by norm_num)
  refine ⟨rfl, by rw [habs]; norm_num, ?_⟩
  rw [solve_num_fst (CedraSolver.mk 0 0) 5e-16 1 1 (by rw [habs]; norm_num),
    detect_fst_special]
  rw [if_neg (by rw [habs]; norm_num)]

/-- Claim C5: on any non-finite argument or degenerate `|a| < 1e-16` the
returned sequence is empty, and it is the very same value (the empty
sequence) that a no-real-roots instance such as `solve(1,1,1)` returns:
nothing distinguishes invalid input from "no real roots". -/
theorem C5_invalid_empty (s : CedraSolver) (a b c : Fl)
    (h : (a.isFinite && b.isFinite && c.isFinite) = false ∨ |a.val| < 1e-16) :
    (s.solve a b c).2 = [] ∧
    (s.solve a b c).2 = ((CedraSolver.mk 0 0).solve (.num 1) (.num 1) (.num 1)).2 := by
  have h1 : (s.solve a b c).2 = [] := by rw [solve_invalid s a b c h]
  exact ⟨h1, by rw [h1, solve_one_one_one]⟩

/-- Claim C5, witness at the concrete invalid input `solve(nan, 1, 1)`. -/
theorem C5_witness :
    ((Fl.nan.isFinite && (Fl.num 1).isFinite && (Fl.num 1).isFinite) = false) ∧
    ((CedraSolver.mk 0 0).solve .nan (.num 1) (.num 1)).2 = [] :=
  ⟨rfl, (C5_invalid_empty (CedraSolver.mk 0 0) .nan (.num 1) (.num 1) (Or.inl rfl)).1⟩

/-- Claim C7: on a validated call in which no special case fires and the
discriminant `b² - 4ac` is negative, `solve` returns the empty sequence. -/
theorem C7_negative_discriminant_empty (s : CedraSolver) (a b c : ℝ)
    (hval : 1e-16 ≤ |a|)
    (hdet : ((CedraSolver.mk 0 0).detect_special_cases a b c).2 = none)
    (hD : b * b - 4 * a * c < 0) :
    (s.solve (.num a) (.num b) (.num c)).2 = [] := by
  rw [solve_num_snd s a b c (not_lt.mpr hval), hdet]
  simp only [solve_general_case]
  rw [if_pos hD]

/-- Claim C7, witness: in particular `solve(1, 1, 1)` returns `[]`. -/
theorem C7_witness :
    1e-16 ≤ |(1 : ℝ)| ∧ ((CedraSolver.mk 0 0).detect_special_cases 1 1 1).2 = none ∧
    (1 : ℝ) * 1 - 4 * 1 * 1 < 0 ∧
    ((CedraSolver.mk 0 0).solve (.num 1) (.num 1) (.num 1)).2 = [] :=
  ⟨by norm_num, detect_one_one_one, by norm_num,
    C7_negative_discriminant_empty (CedraSolver.mk 0 0) 1 1 1 (by norm_num)
      detect_one_one_one (by norm_num)⟩

/-- Claim C8: every call increments the invocation counter by exactly
one, and on invalid input the resulting state is exactly the old state
with only that counter bumped (the special-case counter untouched). -/
theorem C8_total_increment (s : CedraSolver) (a b c : Fl) :
    (s.solve a b c).1.solutions_count = s.solutions_count + 1 ∧
    ((a.isFinite && b.isFinite && c.isFinite) = false ∨ |a.val| < 1e-16 →
      (s.solve a b c).1 = { s with solutions_count := s.solutions_count + 1 }) :=
  ⟨solve_fst_solutions s a b c, fun h => by rw [solve_invalid s a b c h]⟩

/-- Claim C8, witness at the concrete invalid input `solve(nan, 1, 1)`. -/
theorem C8_witness :
    ((Fl.nan.isFinite && (Fl.num 1).isFinite && (Fl.num 1).isFinite) = false) ∧
    ((CedraSolver.mk 0 0).solve .nan (.num 1) (.num 1)).1 = CedraSolver.mk 1 0 :=
  ⟨rfl, by
    exact (C8_total_increment (CedraSolver.mk 0 0) .nan (.num 1) (.num 1)).2 (Or.inl rfl)⟩

/-- In every reachable state the special-case counter is bounded by the
invocation counter. -/
lemma reachable_special_le (s : CedraSolver) (h : ReachableState s) :
    s.special_cases_count ≤ s.solutions_count := by
  induction h with
  | init => exact le_refl 0
  | step s a b c h ih =>
    have h1 := solve_fst_solutions s a b c
    rcases solve_fst_special s a b c with h2 | h2 <;> omega

/-- Claim C9: on every state reachable from a fresh solver,
`special_cases_count ≤ solutions_count`, hence the reported
`special_case_rate` lies between 0 and 100. -/
theorem C9_stats_invariant (s : CedraSolver) (h : ReachableState s) :
    s.special_cases_count ≤ s.solutions_count ∧
    0 ≤ (s.get_stats).special_case_rate ∧ (s.get_stats).special_case_rate ≤ 100 := by
  have hle := reachable_special_le s h
  refine ⟨hle, ?_, ?_⟩
  · simp only [CedraSolver.get_stats]
    positivity
  · simp only [CedraSolver.get_stats]
    have hmax1 : (1 : ℕ) ≤ max 1 s.solutions_count := le_max_left _ _
    have hmax : (0 : ℝ) < ((max 1 s.solutions_count : ℕ) : ℝ) := by
      exact_mod_cast lt_of_lt_of_le Nat.zero_lt_one hmax1
    have hnum : (s.special_cases_count : ℝ) ≤ ((max 1 s.solutions_count : ℕ) : ℝ) := by
      exact_mod_cast le_trans hle (le_max_right 1 _)
    have hdiv : (s.special_cases_count : ℝ) / ((max 1 s.solutions_count : ℕ) : ℝ) ≤ 1 :=
      div_le_one_of_le₀ hnum (le_of_lt hmax)
    linarith

/-- Claim C9, witness at the fresh solver state. -/
theorem C9_witness :
    ReachableState (CedraSolver.mk 0 0) ∧
    ((CedraSolver.mk 0 0).special_cases_count ≤ (CedraSolver.mk 0 0).solutions_count ∧
     0 ≤ ((CedraSolver.mk 0 0).get_stats).special_case_rate ∧
     ((CedraSolver.mk 0 0).get_stats).special_case_rate ≤ 100) :=
  ⟨ReachableState.init, C9_stats_invariant (CedraSolver.mk 0 0) ReachableState.init⟩

/-- Claim C10: the returned root sequence depends only on the arguments,
never on the counter state of the solver instance. -/
theorem C10_state_independent (s t : CedraSolver) (a b c : Fl) :
    (s.solve a b c).2 = (t.solve a b c).2 := by
  simp only [CedraSolver.solve]
  split_ifs with h1 h2
  · rfl
  · rfl
  · rcases hs : ({ s with solutions_count := s.solutions_count + 1 } :
        CedraSolver).detect_special_cases a.val b.val c.val with ⟨s2, r⟩
    rcases ht2 : ({ t with solutions_count := t.solutions_count + 1 } :
        CedraSolver).detect_special_cases a.val b.val c.val with ⟨t2, r2⟩
    have heq : r = r2 := by
      have := detect_snd_const
        ({ s with solutions_count := s.solutions_count + 1 } : CedraSolver)
        ({ t with solutions_count := t.solutions_count + 1 } : CedraSolver) a.val b.val c.val
      rw [hs, ht2] at this
      exact this
    subst heq
    cases r <;> rfl

/-! ### Claim C6: a reachable exception -/

/-- `_detect_special_casesChecked` hits the `math.pow` domain error at
`(a, b, c) = (1, 0, 1e-15)`: case 1 is skipped because `|c| < 1e-15` is
false at equality, case 2 fires with `ratio = -c/a = -1e-15`, and since
neither `ratio < -1e-15` nor `|ratio| < 1e-15` holds, `math.pow(-1e-15,
0.25)` is evaluated on a negative base. -/
lemma detect_checked_crash :
    ((CedraSolver.mk 1 0).detect_special_casesChecked 1 0 1e-15) = none := by
  norm_num [CedraSolver.detect_special_casesChecked, divChecked, pow4Checked,
    Option.bind, abs_of_pos, abs_of_nonneg]

/-- Claim C6 (refuted, the code can raise): with every partial primitive
operation guarded, `solve(1.0, 0.0, 1e-15)` evaluates to the error value
`none` — the Python code raises `ValueError` from `math.pow(-1e-15, 0.25)`
instead of returning a sequence. -/
theorem C6_pow_domain_error :
    (CedraSolver.mk 0 0).solveChecked (.num 1) (.num 0) (.num 1e-15) = none := by
  simp only [CedraSolver.solveChecked, Fl.isFinite, Fl.val]
  rw [if_neg (by simp), if_neg (by rw [abs_one]; norm_num)]
  rw [show ({ CedraSolver.mk 0 0 with
      solutions_count := (CedraSolver.mk 0 0).solutions_count + 1 } :
      CedraSolver) = CedraSolver.mk 1 0 from rfl]
  rw [detect_checked_crash]
  rfl

/-! ### Claim C2: the returned sequence is ascending and spaced -/

/-- A square root of a quantity at least `1e-15` is at least `1e-14`. -/
lemma sqrt_ge_threshold (q : ℝ) (hq : 1e-15 ≤ q) : (1e-14 : ℝ) ≤ Real.sqrt q :=
  Real.le_sqrt_of_sq_le (by
    calc ((1e-14 : ℝ)) ^ 2 = 1e-28 := by norm_num
    _ ≤ 1e-15 := by norm_num
    _ ≤ q := hq)

/-- A fourth root of a quantity at least `1e-15` is at least `5e-15`. -/
lemma pow4_ge_threshold (q : ℝ) (hq : 1e-15 ≤ q) :
    (5e-15 : ℝ) ≤ Real.sqrt (Real.sqrt q) :=
  Real.le_sqrt_of_sq_le (by
    calc ((5e-15 : ℝ)) ^ 2 = 2.5e-29 := by norm_num
    _ ≤ 1e-14 := by norm_num
    _ ≤ Real.sqrt q := sqrt_ge_threshold q hq)

/-- The pair `[-r, r]` is spaced when `r ≥ 5e-15`. -/
lemma pair_spaced (r : ℝ) (hr : 5e-15 ≤ r) :
    ([-r, r] : List ℝ).Pairwise (fun x y => x < y ∧ 1e-14 ≤ y - x) := by
  refine List.Pairwise.cons ?_ (List.pairwise_singleton _ _)
  intro y hy
  have : y = r := List.mem_singleton.mp hy
  subst this
  constructor <;> linarith

/-- The triple `[-r, 0, r]` is spaced when `r ≥ 1e-14`. -/
lemma triple_spaced (r : ℝ) (hr : 1e-14 ≤ r) :
    ([-r, 0, r] : List ℝ).Pairwise (fun x y => x < y ∧ 1e-14 ≤ y - x) := by
  refine List.Pairwise.cons ?_ ?_
  · intro y hy
    rcases List.mem_cons.mp hy with rfl | hy'
    · constructor <;> linarith
    · have : y = r := List.mem_singleton.mp hy'
      subst this
      constructor <;> linarith
  · refine List.Pairwise.cons ?_ (List.pairwise_singleton _ _)
    intro y hy
    have : y = r := List.mem_singleton.mp hy
    subst this
    constructor <;> linarith


/-- Extract the root-list equality from a successful checked detection. -/
lemma checked_result_eq {s2' s2 : CedraSolver} {X l : List ℝ}
    (h : (some (s2', some X) : Option (CedraSolver × Option (List ℝ))) = some (s2, some l)) :
    l = X :=
  (Option.some_inj.mp (congrArg Prod.snd (Option.some_inj.mp h))).symm

/-- `divChecked` success characterization. -/
lemma divChecked_eq_some (x y q : ℝ) (h : divChecked x y = some q) :
    q = x / y ∧ y ≠ 0 := by
  simp only [divChecked] at h
  split_ifs at h with h1
  simp_all

/-- `sqrtChecked` success characterization. -/
lemma sqrtChecked_eq_some (x r : ℝ) (h : sqrtChecked x = some r) :
    r = Real.sqrt x ∧ 0 ≤ x := by
  simp only [sqrtChecked] at h
  split_ifs at h with h1
  simp_all

/-- `pow4Checked` success characterization. -/
lemma pow4Checked_eq_some (x r : ℝ) (h : pow4Checked x = some r) :
    r = Real.sqrt (Real.sqrt x) ∧ 0 ≤ x := by
  simp only [pow4Checked] at h
  split_ifs at h with h1
  simp_all

/-- Any root list produced by a successful special-case detection is
strictly ascending with pairwise gaps of at least `1e-14`. -/
lemma detectChecked_spaced (s s2 : CedraSolver) (a b c : ℝ) (l : List ℝ)
    (h : s.detect_special_casesChecked a b c = some (s2, some l)) :
    l.Pairwise (fun x y => x < y ∧ 1e-14 ≤ y - x) := by
  simp only [CedraSolver.detect_special_casesChecked] at h
  split_ifs at h with h1 h2 h3 h5 h8
  · -- |a| < eps: no special case, contradiction with `some l`
    simp at h
  · -- case 1 with b ≈ 0 as well: [0]
    rw [checked_result_eq h]
    exact List.pairwise_singleton _ _
  · -- case 1, general: divide then branch
    rcases Option.bind_eq_some.mp h with ⟨q, hq, hf⟩
    obtain ⟨rfl, ha0⟩ := divChecked_eq_some _ _ _ hq
    split_ifs at hf with h4
    · rcases Option.bind_eq_some.mp hf with ⟨v, hv, hf2⟩
      obtain ⟨rfl, hnn⟩ := sqrtChecked_eq_some _ _ hv
      rw [checked_result_eq hf2, insertionSort_triple _ (Real.sqrt_nonneg _)]
      exact triple_spaced _ (sqrt_ge_threshold _ (by linarith))
    · rw [checked_result_eq hf]
      exact List.pairwise_singleton _ _
  · -- case 2
    rcases Option.bind_eq_some.mp h with ⟨ratio, hq, hf⟩
    obtain ⟨rfl, ha0⟩ := divChecked_eq_some _ _ _ hq
    split_ifs at hf with h6 h7
    · rw [checked_result_eq hf]
      exact List.Pairwise.nil
    · rw [checked_result_eq hf]
      exact List.pairwise_singleton _ _
    · rcases Option.bind_eq_some.mp hf with ⟨root, hv, hf2⟩
      obtain ⟨rfl, hnn⟩ := pow4Checked_eq_some _ _ hv
      have hge : 1e-15 ≤ -c / a := by
        rcases abs_cases (-c / a) with ⟨heq, _⟩ | ⟨heq, _⟩
        · push_neg at h7; linarith [heq.symm.le, h7]
        · linarith
      rw [checked_result_eq hf2, insertionSort_pair _ (Real.sqrt_nonneg _)]
      exact pair_spaced _ (pow4_ge_threshold _ hge)
  · -- case 3
    rcases Option.bind_eq_some.mp h with ⟨xs, hq, hf⟩
    obtain ⟨rfl, ha0⟩ := divChecked_eq_some _ _ _ hq
    split_ifs at hf with h9 h10
    · rcases Option.bind_eq_some.mp hf with ⟨v, hv, hf2⟩
      obtain ⟨rfl, hnn⟩ := sqrtChecked_eq_some _ _ hv
      rw [checked_result_eq hf2, insertionSort_pair _ (Real.sqrt_nonneg _)]
      refine pair_spaced _ ?_
      have := sqrt_ge_threshold (-b / (2 * a)) (by linarith)
      linarith
    · rw [checked_result_eq hf]
      exact List.pairwise_singleton _ _
    · rw [checked_result_eq hf]
      exact List.Pairwise.nil
  · -- no special case: contradiction with `some l`
    simp at h

/-- Any root list produced by a successful general-case run is strictly
ascending with pairwise gaps of at least `1e-14` (sort + greedy dedup). -/
lemma generalChecked_spaced (a b c : ℝ) (l : List ℝ)
    (h : solve_general_caseChecked a b c = some l) :
    l.Pairwise (fun x y => x < y ∧ 1e-14 ≤ y - x) := by
  simp only [solve_general_caseChecked] at h
  split_ifs at h with h1 hb
  · rw [(Option.some_inj.mp h).symm]
    exact List.Pairwise.nil
  all_goals
    rcases Option.bind_eq_some.mp h with ⟨sd, hsd, h⟩
    rcases Option.bind_eq_some.mp h with ⟨y1, hy1, h⟩
    rcases Option.bind_eq_some.mp h with ⟨y2, hy2, h⟩
    rcases Option.bind_eq_some.mp h with ⟨l1, hl1, h⟩
    rcases Option.bind_eq_some.mp h with ⟨l2, hl2, h⟩
    rw [(Option.some_inj.mp h).symm]
    exact remove_duplicates_pairwise _ [] (List.sorted_insertionSort _ _)
      List.Pairwise.nil (by simp)

/-- Claim C2: whenever `solve` returns (does not raise), the returned
sequence is strictly ascending and any two of its elements differ by at
least `1e-14`. -/
theorem C2_sorted_spaced (s : CedraSolver) (a b c : Fl) (p : CedraSolver × List ℝ)
    (h : s.solveChecked a b c = some p) :
    p.2.Pairwise (fun x y => x < y ∧ 1e-14 ≤ y - x) := by
  simp only [CedraSolver.solveChecked] at h
  split_ifs at h with h1 h2
  · rw [(Option.some_inj.mp h).symm]
    exact List.Pairwise.nil
  · rw [(Option.some_inj.mp h).symm]
    exact List.Pairwise.nil
  · rcases Option.bind_eq_some.mp h with ⟨⟨s2, r⟩, hd, hf⟩
    cases r with
    | some result =>
      rw [(Option.some_inj.mp hf).symm]
      exact detectChecked_spaced _ _ _ _ _ _ hd
    | none =>
      rcases Option.bind_eq_some.mp hf with ⟨lg, hg, hf2⟩
      rw [(Option.some_inj.mp hf2).symm]
      exact generalChecked_spaced _ _ _ _ hg

/-- Claim C2, witness: the degenerate call `solve(0, 1, 1)` returns
(no exception) and its empty result is trivially spaced. -/
theorem C2_witness :
    (CedraSolver.mk 0 0).solveChecked (.num 0) (.num 1) (.num 1) =
      some (CedraSolver.mk 1 0, ([] : List ℝ)) ∧
    ((CedraSolver.mk 1 0, ([] : List ℝ)) : CedraSolver × List ℝ).2.Pairwise
      (fun x y => x < y ∧ 1e-14 ≤ y - x) := by
  have h : (CedraSolver.mk 0 0).solveChecked (.num 0) (.num 1) (.num 1) =
      some (CedraSolver.mk 1 0, ([] : List ℝ)) := by
    simp only [CedraSolver.solveChecked, Fl.isFinite, Fl.val]
    rw [if_neg (by simp), if_pos (by rw [abs_zero]; norm_num)]
  exact ⟨h, C2_sorted_spaced (CedraSolver.mk 0 0) (.num 0) (.num 1) (.num 1) _ h⟩

/-! ### Claim C1: residuals of returned roots -/

/-- A root of the substituted quadratic gives a root of the quartic. -/
lemma root_from_y (a b c y x : ℝ) (hroot : a * y ^ 2 + b * y + c = 0)
    (hx2 : x ^ 2 = y) : a * x ^ 4 + b * x ^ 2 + c = 0 := by
  have h : a * x ^ 4 + b * x ^ 2 + c = a * (x ^ 2) ^ 2 + b * (x ^ 2) + c := by ring
  rw [h, hx2]
  exact hroot

/-- What membership in the back-substitution list means. -/
lemma back_substitute_cases (y x : ℝ) (hx : x ∈ back_substitute y) :
    x = 0 ∨ ((x = Real.sqrt y ∨ x = -Real.sqrt y) ∧ 1e-14 < y) := by
  simp only [back_substitute] at hx
  split_ifs at hx with h1 h2
  · rcases List.mem_cons.mp hx with h | h
    · exact Or.inr ⟨Or.inl h, h1⟩
    · exact Or.inr ⟨Or.inr (List.mem_singleton.mp h), h1⟩
  · exact Or.inl (List.mem_singleton.mp hx)
  · cases hx

/-- A nonzero x-candidate squares back to its quadratic root y. -/
lemma back_substitute_sq (y x : ℝ) (hx : x ∈ back_substitute y) (hx0 : x ≠ 0) :
    x ^ 2 = y ∧ 1e-14 < y := by
  rcases back_substitute_cases y x hx with h | ⟨h, hy⟩
  · exact absurd h hx0
  · have hy0 : (0 : ℝ) ≤ y := by linarith
    rcases h with h | h
    · rw [h]; exact ⟨Real.sq_sqrt hy0, hy⟩
    · rw [h]; rw [neg_sq]; exact ⟨Real.sq_sqrt hy0, hy⟩

/-- The `y1` quadratic root is exact (branch `b ≥ 0`). -/
lemma y1_root_pos (a b c : ℝ) (ha : a ≠ 0) (hD : 0 ≤ b * b - 4 * a * c) :
    a * ((-b - Real.sqrt (b * b - 4 * a * c)) / (2 * a)) ^ 2 +
      b * ((-b - Real.sqrt (b * b - 4 * a * c)) / (2 * a)) + c = 0 := by
  have hrw : -b - Real.sqrt (b * b - 4 * a * c) =
      -b + -Real.sqrt (b * b - 4 * a * c) := by ring
  rw [hrw]
  exact quad_root_vertex a b c (-Real.sqrt (b * b - 4 * a * c)) ha
    (by rw [neg_sq]; exact Real.sq_sqrt hD)

/-- The `y1` quadratic root is exact (branch `b < 0`). -/
lemma y1_root_neg (a b c : ℝ) (ha : a ≠ 0) (hD : 0 ≤ b * b - 4 * a * c) :
    a * ((-b + Real.sqrt (b * b - 4 * a * c)) / (2 * a)) ^ 2 +
      b * ((-b + Real.sqrt (b * b - 4 * a * c)) / (2 * a)) + c = 0 :=
  quad_root_vertex a b c (Real.sqrt (b * b - 4 * a * c)) ha (Real.sq_sqrt hD)

/-- The Citardauq `y2` root is exact (branch `b ≥ 0`, `√D > 1e-15`). -/
lemma y2_root_pos (a b c : ℝ) (hb : 0 ≤ b)
    (hsd : 1e-15 < Real.sqrt (b * b - 4 * a * c)) (hD : 0 ≤ b * b - 4 * a * c) :
    a * (2 * c / (-b - Real.sqrt (b * b - 4 * a * c))) ^ 2 +
      b * (2 * c / (-b - Real.sqrt (b * b - 4 * a * c))) + c = 0 := by
  have hrw : -b - Real.sqrt (b * b - 4 * a * c) =
      -b + -Real.sqrt (b * b - 4 * a * c) := by ring
  rw [hrw]
  refine quad_root_citardauq a b c (-Real.sqrt (b * b - 4 * a * c)) ?_
    (by rw [neg_sq]; exact Real.sq_sqrt hD)
  intro hcon
  linarith

/-- The Citardauq `y2` root is exact (branch `b < 0`). -/
lemma y2_root_neg (a b c : ℝ) (hb : b < 0) (hD : 0 ≤ b * b - 4 * a * c) :
    a * (2 * c / (-b + Real.sqrt (b * b - 4 * a * c))) ^ 2 +
      b * (2 * c / (-b + Real.sqrt (b * b - 4 * a * c))) + c = 0 := by
  refine quad_root_citardauq a b c (Real.sqrt (b * b - 4 * a * c)) ?_ (Real.sq_sqrt hD)
  intro hcon
  linarith [Real.sqrt_nonneg (b * b - 4 * a * c)]

/-- Every nonzero value returned by the general method is an exact root
of the quartic (in the exact-real model of the float algorithm). -/
lemma solve_general_case_exact (a b c x : ℝ) (ha : a ≠ 0)
    (hx : x ∈ solve_general_case a b c) (hx0 : x ≠ 0) :
    a * x ^ 4 + b * x ^ 2 + c = 0 := by
  simp only [solve_general_case] at hx
  split_ifs at hx with h1 hb hsd hsd
  · cases hx
  all_goals
    have hD : (0:ℝ) ≤ b * b - 4 * a * c := le_of_not_lt h1
    rcases remove_duplicates_mem _ [] x hx with h | h
    · cases h
    · rw [(List.perm_insertionSort (· ≤ ·) _).mem_iff] at h
      rcases List.mem_append.mp h with h | h
      all_goals
        rcases back_substitute_sq _ x h hx0 with ⟨hxy, hy⟩
        refine root_from_y a b c _ x ?_ hxy
        first
        | exact y1_root_pos a b c ha hD
        | exact y1_root_neg a b c ha hD
        | exact y2_root_pos a b c hb hsd hD
        | exact y2_root_neg a b c (lt_of_not_le hb) hD
        | exact absurd hy (by norm_num)

/-- Claim C1 (amended): on a validated call where no special case fires,
every nonzero returned value is an exact root of the quartic in the
real model, hence trivially within the 1e-6 residual bound.  (The bound
fails for special-case roots and for zero roots, see the
counterexample.) -/
theorem C1_general_nonzero_roots_exact (s : CedraSolver) (a b c x : ℝ)
    (hval : 1e-16 ≤ |a|)
    (hdet : ((CedraSolver.mk 0 0).detect_special_cases a b c).2 = none)
    (hx : x ∈ (s.solve (.num a) (.num b) (.num c)).2) (hx0 : x ≠ 0) :
    a * x ^ 4 + b * x ^ 2 + c = 0 ∧ |a * x ^ 4 + b * x ^ 2 + c| < 1e-6 := by
  have ha : a ≠ 0 := by
    intro h
    rw [h, abs_zero] at hval
    norm_num at hval
  rw [solve_num_snd s a b c (not_lt.mpr hval), hdet] at hx
  have h0 := solve_general_case_exact a b c x ha hx hx0
  exact ⟨h0, by rw [h0, abs_zero]; norm_num⟩

/-- Claim C1, counterexample: for `(a, b, c) = (1, 5e-16, -1e30)` the
b ≈ 0 special case returns the nonzero root `x = (1e30)^(1/4)`, whose
residual is `5e-16 · 1e15 = 0.5`, far above the claimed `1e-6` bound. -/
theorem C1_counterexample :
    Real.sqrt (Real.sqrt 1e30) ∈
      ((CedraSolver.mk 0 0).solve (.num 1) (.num 5e-16) (.num (-1e30))).2 ∧
    Real.sqrt (Real.sqrt 1e30) ≠ 0 ∧
    ¬ |(1:ℝ) * Real.sqrt (Real.sqrt 1e30) ^ 4 +
        5e-16 * Real.sqrt (Real.sqrt 1e30) ^ 2 + (-1e30)| < 1e-6 := by
  have hdet : ((CedraSolver.mk 0 0).detect_special_cases 1 5e-16 (-1e30)).2 =
      some [-Real.sqrt (Real.sqrt 1e30), Real.sqrt (Real.sqrt 1e30)] := by
    simp only [CedraSolver.detect_special_cases]
    rw [if_neg (by rw [abs_one]; norm_num)]
    rw [if_neg (by rw [abs_of_neg (by norm_num : (-1e30:ℝ) < 0)]; norm_num)]
    rw [if_pos (by rw [abs_of_pos (by norm_num : (0:ℝ) < 5e-16)]; norm_num)]
    rw [show (-(-1e30:ℝ)) / 1 = 1e30 by norm_num]
    rw [if_neg (by norm_num)]
    rw [if_neg (by rw [abs_of_pos (by norm_num : (0:ℝ) < 1e30)]; norm_num)]
    rw [insertionSort_pair _ (Real.sqrt_nonneg _)]
  have hres : ((CedraSolver.mk 0 0).solve (.num 1) (.num 5e-16) (.num (-1e30))).2 =
      [-Real.sqrt (Real.sqrt 1e30), Real.sqrt (Real.sqrt 1e30)] := by
    rw [solve_num_snd _ _ _ _ (by rw [abs_one]; norm_num), hdet]
  have hs30 : Real.sqrt (1e30:ℝ) = 1e15 := by
    rw [show (1e30:ℝ) = (1e15) ^ 2 by norm_num]
    exact Real.sqrt_sq (by norm_num)
  have hx2 : Real.sqrt (Real.sqrt 1e30) ^ 2 = Real.sqrt 1e30 :=
    Real.sq_sqrt (Real.sqrt_nonneg _)
  have hx4 : Real.sqrt (Real.sqrt 1e30) ^ 4 = 1e30 := by
    have h : Real.sqrt (Real.sqrt 1e30) ^ 4 =
        (Real.sqrt (Real.sqrt 1e30) ^ 2) ^ 2 := by ring
    rw [h, hx2, hs30]
    norm_num
  refine ⟨?_, ?_, ?_⟩
  · rw [hres]
    simp
  · rw [Real.sqrt_ne_zero']
    rw [hs30]
    norm_num
  · rw [hx4, hx2, hs30]
    rw [show (1:ℝ) * 1e30 + 5e-16 * 1e15 + (-1e30) = 0.5 by norm_num]
    rw [abs_of_pos (by norm_num : (0:ℝ) < 0.5)]
    norm_num

/-- The deduplication loop keeps both elements of an already-spaced
sorted pair. -/
lemma remove_duplicates_pair (u v : ℝ) (h : 1e-14 ≤ v - u) :
    remove_duplicates [] [u, v] = [u, v] := by
  have hcond : ¬ ∃ e ∈ [u], |v - e| < 1e-14 := by
    push_neg
    intro e he
    rw [List.mem_singleton] at he
    subst he
    rw [abs_of_nonneg (by linarith)]
    linarith
  simp only [remove_duplicates, List.nil_append, List.singleton_append]
  rw [if_neg (by simp), if_neg hcond]

/-- Sorting the reversed pair `[r, -r]` for positive `r`. -/
lemma insertionSort_pair_rev (r : ℝ) (hr : 0 < r) :
    List.insertionSort (· ≤ ·) [r, -r] = [-r, r] := by
  simp only [List.insertionSort, List.orderedInsert]
  rw [if_neg (by intro hcon; linarith)]

/-- `_detect_special_cases (1, -1, -2)` fires no special case. -/
lemma detect_one_negone_negtwo :
    ((CedraSolver.mk 0 0).detect_special_cases 1 (-1) (-2)).2 = none := by
  simp only [CedraSolver.detect_special_cases]
  rw [if_neg (by rw [abs_one]; norm_num)]
  rw [if_neg (by rw [abs_of_neg (by norm_num : (-2:ℝ) < 0)]; norm_num)]
  rw [if_neg (by rw [abs_of_neg (by norm_num : (-1:ℝ) < 0)]; norm_num)]
  rw [if_neg (by
    rw [show ((-1:ℝ)) * (-1) - 4 * 1 * (-2) = 9 by norm_num]
    rw [show |(4:ℝ) * 1 * (-2)| = 8 by
      rw [abs_of_neg (by norm_num : (4:ℝ) * 1 * (-2) < 0)]; norm_num]
    rw [show ((-1:ℝ)) * (-1) = 1 by norm_num]
    rw [show max (max (1:ℝ) 8) 1 = 8 by norm_num [max_def]]
    rw [abs_of_pos (by norm_num : (0:ℝ) < 9)]
    norm_num)]

/-- Full evaluation of the general method at `(1, -1, -2)`: the
quadratic roots are `y1 = 2` and `y2 = -1`, so the result is `±√2`. -/
lemma general_one_negone_negtwo :
    solve_general_case 1 (-1) (-2) = [-Real.sqrt 2, Real.sqrt 2] := by
  have hs9 : Real.sqrt (9:ℝ) = 3 := by
    rw [show (9:ℝ) = 3 ^ 2 by norm_num]
    exact Real.sqrt_sq (by norm_num)
  simp only [solve_general_case,
    show ((-1:ℝ)) * (-1) - 4 * 1 * (-2) = 9 from by norm_num, hs9]
  rw [if_neg (by norm_num)]
  rw [if_neg (by norm_num : ¬ (0:ℝ) ≤ -1)]
  rw [if_neg (by norm_num : ¬ (0:ℝ) ≤ -1)]
  rw [if_pos (by norm_num : (1e-15:ℝ) < 3)]
  rw [show (-(-1:ℝ) + 3) / (2 * 1) = 2 by norm_num]
  rw [show 2 * (-2:ℝ) / (-(-1) + 3) = -1 by norm_num]
  rw [show back_substitute 2 = [Real.sqrt 2, -Real.sqrt 2] from by
    simp only [back_substitute]; rw [if_pos (by norm_num : (1e-14:ℝ) < 2)]]
  rw [show back_substitute (-1) = [] from by
    simp only [back_substitute]
    rw [if_neg (by norm_num),
      if_neg (by rw [abs_of_neg (by norm_num : (-1:ℝ) < 0)]; norm_num)]]
  rw [show ([Real.sqrt 2, -Real.sqrt 2] ++ [] : List ℝ) = [Real.sqrt 2, -Real.sqrt 2]
    from by simp]
  rw [insertionSort_pair_rev _ (Real.sqrt_pos.mpr (by norm_num))]
  refine remove_duplicates_pair _ _ ?_
  have h1 : (1:ℝ) ≤ Real.sqrt 2 := by
    rw [show (1:ℝ) = Real.sqrt 1 from (Real.sqrt_one).symm]
    exact Real.sqrt_le_sqrt (by norm_num)
  linarith

/-- Claim C1, witness: `solve(1, -1, -2)` goes through the general
method and returns `√2`, an exact root of `x⁴ - x² - 2`. -/
theorem C1_witness :
    1e-16 ≤ |(1:ℝ)| ∧
    ((CedraSolver.mk 0 0).detect_special_cases 1 (-1) (-2)).2 = none ∧
    Real.sqrt 2 ∈ ((CedraSolver.mk 0 0).solve (.num 1) (.num (-1)) (.num (-2))).2 ∧
    Real.sqrt 2 ≠ 0 ∧
    ((1:ℝ) * Real.sqrt 2 ^ 4 + (-1) * Real.sqrt 2 ^ 2 + (-2) = 0 ∧
     |(1:ℝ) * Real.sqrt 2 ^ 4 + (-1) * Real.sqrt 2 ^ 2 + (-2)| < 1e-6) := by
  have h1 : (1e-16:ℝ) ≤ |(1:ℝ)| := by rw [abs_one]; norm_num
  have hmem : Real.sqrt 2 ∈
      ((CedraSolver.mk 0 0).solve (.num 1) (.num (-1)) (.num (-2))).2 := by
    rw [solve_num_snd _ _ _ _ (not_lt.mpr h1), detect_one_negone_negtwo]
    show Real.sqrt 2 ∈ solve_general_case 1 (-1) (-2)
    rw [general_one_negone_negtwo]
    simp
  have hne : Real.sqrt 2 ≠ 0 := by
    rw [Real.sqrt_ne_zero']
    norm_num
  exact ⟨h1, detect_one_negone_negtwo, hmem, hne,
    C1_general_nonzero_roots_exact (CedraSolver.mk 0 0) 1 (-1) (-2) (Real.sqrt 2)
      h1 detect_one_negone_negtwo hmem hne⟩

/-! ### Claim C4: symmetry of the returned roots -/

/-- Finite arguments are `num` values. -/
lemma all_num_of_finite (a b c : Fl)
    (h : (a.isFinite && b.isFinite && c.isFinite) = true) :
    ∃ x y z : ℝ, a = .num x ∧ b = .num y ∧ c = .num z := by
  cases a <;> cases b <;> cases c <;>
    first
      | exact ⟨_, _, _, rfl, rfl, rfl⟩
      | simp [Fl.isFinite] at h

/-- The back-substitution candidates are closed under negation away
from zero. -/
lemma back_substitute_neg (y x : ℝ) (hx : x ∈ back_substitute y) (hx0 : x ≠ 0) :
    -x ∈ back_substitute y := by
  simp only [back_substitute] at hx ⊢
  split_ifs at hx ⊢ with h1 h2
  · rcases List.mem_cons.mp hx with rfl | h
    · simp
    · rw [List.mem_singleton.mp h]
      simp
  · exact absurd (List.mem_singleton.mp hx) hx0
  · cases hx

/-- Inside one general-case branch: some kept root lies within `1e-14`
of `-x` whenever `x` is kept and nonzero. -/
lemma general_branch_symmetric (w1 w2 x : ℝ)
    (hx : x ∈ remove_duplicates []
      (List.insertionSort (· ≤ ·) (back_substitute w1 ++ back_substitute w2)))
    (hx0 : x ≠ 0) :
    ∃ k ∈ remove_duplicates []
      (List.insertionSort (· ≤ ·) (back_substitute w1 ++ back_substitute w2)),
      |k - (-x)| < 1e-14 := by
  rcases remove_duplicates_mem _ [] x hx with h | h
  · cases h
  · rw [(List.perm_insertionSort (· ≤ ·) _).mem_iff] at h
    have hneg : -x ∈ back_substitute w1 ++ back_substitute w2 := by
      rcases List.mem_append.mp h with h' | h'
      · exact List.mem_append_left _ (back_substitute_neg _ _ h' hx0)
      · exact List.mem_append_right _ (back_substitute_neg _ _ h' hx0)
    rw [← (List.perm_insertionSort (· ≤ ·)
      (back_substitute w1 ++ back_substitute w2)).mem_iff] at hneg
    obtain ⟨k, hk, hlt⟩ := remove_duplicates_cover _ [] (-x) hneg
    exact ⟨k, hk, by rw [abs_sub_comm] at hlt; exact hlt⟩

/-- Tolerance-symmetry of the general method. -/
lemma general_symmetric (a b c x : ℝ) (hx : x ∈ solve_general_case a b c)
    (hx0 : x ≠ 0) :
    ∃ k ∈ solve_general_case a b c, |k - (-x)| < 1e-14 := by
  simp only [solve_general_case] at hx ⊢
  split_ifs at hx ⊢ with h1 hb hsd hsd
  · cases hx
  all_goals exact general_branch_symmetric _ _ x hx hx0

/-- The possible shapes of a special-case result list: empty, `{0}`, a
symmetric pair, or a symmetric pair plus zero. -/
lemma detect_some_shape (s : CedraSolver) (a b c : ℝ) (l : List ℝ)
    (hd : (s.detect_special_cases a b c).2 = some l) :
    l = [] ∨ l = [0] ∨ ∃ r : ℝ, 0 ≤ r ∧ (l = [-r, r] ∨ l = [-r, 0, r]) := by
  simp only [CedraSolver.detect_special_cases] at hd
  split_ifs at hd with h1 h2 h3 h4 h5 h6 h7 h8 h9 h10
  · exact Or.inr (Or.inl (Option.some_inj.mp hd).symm)
  · have hl : l = List.insertionSort (· ≤ ·)
        [-Real.sqrt (-b / a), 0, Real.sqrt (-b / a)] := (Option.some_inj.mp hd).symm
    rw [insertionSort_triple _ (Real.sqrt_nonneg _)] at hl
    exact Or.inr (Or.inr ⟨_, Real.sqrt_nonneg _, Or.inr hl⟩)
  · exact Or.inr (Or.inl (Option.some_inj.mp hd).symm)
  · exact Or.inl (Option.some_inj.mp hd).symm
  · exact Or.inr (Or.inl (Option.some_inj.mp hd).symm)
  · have hl : l = List.insertionSort (· ≤ ·)
        [-Real.sqrt (Real.sqrt (-c / a)), Real.sqrt (Real.sqrt (-c / a))] :=
      (Option.some_inj.mp hd).symm
    rw [insertionSort_pair _ (Real.sqrt_nonneg _)] at hl
    exact Or.inr (Or.inr ⟨_, Real.sqrt_nonneg _, Or.inl hl⟩)
  · have hl : l = List.insertionSort (· ≤ ·)
        [-Real.sqrt (-b / (2 * a)), Real.sqrt (-b / (2 * a))] :=
      (Option.some_inj.mp hd).symm
    rw [insertionSort_pair _ (Real.sqrt_nonneg _)] at hl
    exact Or.inr (Or.inr ⟨_, Real.sqrt_nonneg _, Or.inl hl⟩)
  · exact Or.inr (Or.inl (Option.some_inj.mp hd).symm)
  · exact Or.inl (Option.some_inj.mp hd).symm

/-- Claim C4 (amended): if `x ≠ 0` is a returned root, some returned
root lies within `1e-14` of `-x`.  (Exact membership of `-x` can fail:
the deduplication pass may merge two distinct roots closer than
`1e-14`, see the counterexample.) -/
theorem C4_symmetry_within_tolerance (s : CedraSolver) (a b c : Fl) (x : ℝ)
    (hx : x ∈ (s.solve a b c).2) (hx0 : x ≠ 0) :
    ∃ y ∈ (s.solve a b c).2, |y - (-x)| < 1e-14 := by
  by_cases hfin : (a.isFinite && b.isFinite && c.isFinite) = true
  · by_cases hval : |a.val| < 1e-16
    · rw [solve_invalid s a b c (Or.inr hval)] at hx
      simp at hx
    · obtain ⟨av, bv, cv, rfl, rfl, rfl⟩ := all_num_of_finite a b c hfin
      simp only [Fl.val] at hval
      rw [solve_num_snd s av bv cv hval] at hx ⊢
      cases hd : ((CedraSolver.mk 0 0).detect_special_cases av bv cv).2 with
      | none =>
        rw [hd] at hx
        exact general_symmetric av bv cv x hx hx0
      | some l =>
        rw [hd] at hx
        have hx' : x ∈ l := hx
        have hsym : -x ∈ l := by
          rcases detect_some_shape (CedraSolver.mk 0 0) av bv cv l hd with
            rfl | rfl | ⟨r, hr, rfl | rfl⟩
          · cases hx'
          · exact absurd (List.mem_singleton.mp hx') hx0
          · rcases List.mem_cons.mp hx' with rfl | h
            · simp
            · rw [List.mem_singleton.mp h]
              simp
          · rcases List.mem_cons.mp hx' with rfl | h
            · simp
            · rcases List.mem_cons.mp h with rfl | h2
              · exact absurd rfl hx0
              · rw [List.mem_singleton.mp h2]
                simp
        exact ⟨-x, hsym, by rw [sub_self, abs_zero]; norm_num⟩
  · have hff : (a.isFinite && b.isFinite && c.isFinite) = false := by
      cases hkk : (a.isFinite && b.isFinite && c.isFinite)
      · rfl
      · exact absurd hkk hfin
    rw [solve_invalid s a b c (Or.inl hff)] at hx
    simp at hx

/-- `_detect_special_cases (1, -1, 0)` fires case 1 and returns the
symmetric triple `[-1, 0, 1]`. -/
lemma detect_one_negone_zero :
    ((CedraSolver.mk 0 0).detect_special_cases 1 (-1) 0).2 = some [-1, 0, 1] := by
  simp only [CedraSolver.detect_special_cases]
  rw [if_neg (by rw [abs_one]; norm_num)]
  rw [if_pos (by rw [abs_zero]; norm_num)]
  rw [if_neg (by rw [abs_of_neg (by norm_num : (-1:ℝ) < 0)]; norm_num)]
  rw [if_pos (by norm_num : (1e-15:ℝ) < -(-1) / 1)]
  rw [show (-(-1:ℝ)) / 1 = 1 by norm_num, Real.sqrt_one]
  rw [insertionSort_triple 1 (by norm_num)]

/-- Claim C4, witness: `solve(1, -1, 0)` returns `[-1, 0, 1]`; for the
root `x = 1`, the root `-1` lies (exactly) within `1e-14` of `-x`. -/
theorem C4_witness :
    (1:ℝ) ∈ ((CedraSolver.mk 0 0).solve (.num 1) (.num (-1)) (.num 0)).2 ∧
    (1:ℝ) ≠ 0 ∧
    ∃ y ∈ ((CedraSolver.mk 0 0).solve (.num 1) (.num (-1)) (.num 0)).2,
      |y - -(1:ℝ)| < 1e-14 := by
  have h1 : ¬ |(1:ℝ)| < 1e-16 := by rw [abs_one]; norm_num
  have hres : ((CedraSolver.mk 0 0).solve (.num 1) (.num (-1)) (.num 0)).2 =
      [-1, 0, 1] := by
    rw [solve_num_snd _ _ _ _ h1, detect_one_negone_zero]
  have hmem : (1:ℝ) ∈ ((CedraSolver.mk 0 0).solve (.num 1) (.num (-1)) (.num 0)).2 := by
    rw [hres]
    simp
  exact ⟨hmem, by norm_num,
    C4_symmetry_within_tolerance (CedraSolver.mk 0 0) (.num 1) (.num (-1)) (.num 0) 1
      hmem (by norm_num)⟩

/-- One unfolding step of the deduplication loop. -/
lemma remove_duplicates_cons (acc : List ℝ) (sol : ℝ) (rest : List ℝ) :
    remove_duplicates acc (sol :: rest) =
      if ∃ e ∈ acc, |sol - e| < 1e-14 then remove_duplicates acc rest
      else remove_duplicates (acc ++ [sol]) rest := by
  simp only [remove_duplicates]

/-- At the counterexample input for claim C4, no special case fires:
`a = 1e14` is huge, `|c| ≈ 1.6e-13` and `|b| ≈ 8` are not small, and
the discriminant `≈ 1.024e-13` exceeds its relative threshold
`1e-15 · b² ≈ 6.4e-14`. -/
lemma c4_detect :
    ((CedraSolver.mk 0 0).detect_special_cases (10^14)
      (-(80000003200000064/10^16)) (160000012800000256/10^30)).2 = none := by
  simp only [CedraSolver.detect_special_cases]
  rw [if_neg (by rw [abs_of_pos (by norm_num : (0:ℝ) < 10^14)]; norm_num)]
  rw [if_neg (by
    rw [abs_of_pos (by norm_num : (0:ℝ) < (160000012800000256:ℝ)/10^30)]
    norm_num)]
  rw [if_neg (by
    rw [abs_of_neg (by norm_num : (-(80000003200000064/10^16):ℝ) < 0)]
    norm_num)]
  rw [if_neg (by
    rw [show (-(80000003200000064/10^16):ℝ) * (-(80000003200000064/10^16)) -
        4 * 10^14 * (160000012800000256/10^30) = 10240000409600004096/10^32 by norm_num]
    rw [abs_of_pos (by norm_num : (0:ℝ) < (10240000409600004096:ℝ)/10^32)]
    rw [show |(4:ℝ) * 10^14 * (160000012800000256/10^30)| =
        640000051200001024/10^16 from by
      rw [abs_of_pos (by norm_num : (0:ℝ) < (4:ℝ) * 10^14 * (160000012800000256/10^30))]
      norm_num]
    rw [show (-(80000003200000064/10^16):ℝ) * (-(80000003200000064/10^16)) =
        6400000512000020480000409600004096/10^32 by norm_num]
    rw [max_eq_left (by norm_num :
      (640000051200001024/10^16:ℝ) ≤ 6400000512000020480000409600004096/10^32)]
    rw [max_eq_left (by norm_num :
      (1:ℝ) ≤ (6400000512000020480000409600004096:ℝ)/10^32)]
    norm_num)]

/-- Full evaluation of the general method at the claim-C4
counterexample input: the two quadratic roots are the squares of
`2.00000008e-7` and `2e-7`, two x-roots end up closer than `1e-14`,
and the deduplication pass drops one member of each symmetric pair. -/
lemma c4_general :
    solve_general_case (10^14) (-(80000003200000064/10^16))
      (160000012800000256/10^30) = [-(200000008/10^15), 2/10^7] := by
  have hD : (-(80000003200000064/10^16):ℝ) * (-(80000003200000064/10^16)) -
      4 * 10^14 * (160000012800000256/10^30) = ((3200000064:ℝ)/10^16)^2 := by norm_num
  have hsD : Real.sqrt ((-(80000003200000064/10^16):ℝ) * (-(80000003200000064/10^16)) -
      4 * 10^14 * (160000012800000256/10^30)) = 3200000064/10^16 := by
    rw [hD]
    exact Real.sqrt_sq (by norm_num)
  simp only [solve_general_case, hsD]
  rw [if_neg (by rw [hD]; norm_num)]
  rw [if_neg (by norm_num : ¬ (0:ℝ) ≤ -(80000003200000064/10^16))]
  rw [if_neg (by norm_num : ¬ (0:ℝ) ≤ -(80000003200000064/10^16))]
  rw [if_pos (by norm_num : (1e-15:ℝ) < 3200000064/10^16)]
  rw [show (-(-(80000003200000064/10^16):ℝ) + 3200000064/10^16) / (2 * 10^14) =
      ((200000008:ℝ)/10^15)^2 by norm_num]
  rw [show 2 * ((160000012800000256:ℝ)/10^30) /
      (-(-(80000003200000064/10^16)) + 3200000064/10^16) = ((2:ℝ)/10^7)^2 by norm_num]
  rw [show back_substitute (((200000008:ℝ)/10^15)^2) =
      [200000008/10^15, -(200000008/10^15)] from by
    simp only [back_substitute]
    rw [if_pos (by norm_num : (1e-14:ℝ) < ((200000008:ℝ)/10^15)^2)]
    rw [Real.sqrt_sq (by norm_num : (0:ℝ) ≤ (200000008:ℝ)/10^15)]]
  rw [show back_substitute (((2:ℝ)/10^7)^2) = [2/10^7, -(2/10^7)] from by
    simp only [back_substitute]
    rw [if_pos (by norm_num : (1e-14:ℝ) < ((2:ℝ)/10^7)^2)]
    rw [Real.sqrt_sq (by norm_num : (0:ℝ) ≤ (2:ℝ)/10^7)]]
  rw [show ([(200000008:ℝ)/10^15, -(200000008/10^15)] ++ [(2:ℝ)/10^7, -(2/10^7)] :
      List ℝ) = [200000008/10^15, -(200000008/10^15), 2/10^7, -(2/10^7)] from rfl]
  have e1 : List.orderedInsert (· ≤ ·) ((2:ℝ)/10^7) [-((2:ℝ)/10^7)] =
      [-(2/10^7), 2/10^7] := by
    simp only [List.orderedInsert]
    rw [if_neg (by norm_num)]
  have e2 : List.orderedInsert (· ≤ ·) (-((200000008:ℝ)/10^15))
      [-((2:ℝ)/10^7), (2:ℝ)/10^7] = [-(200000008/10^15), -(2/10^7), 2/10^7] := by
    simp only [List.orderedInsert]
    rw [if_pos (by norm_num)]
  have e3 : List.orderedInsert (· ≤ ·) ((200000008:ℝ)/10^15)
      [-((200000008:ℝ)/10^15), -((2:ℝ)/10^7), (2:ℝ)/10^7] =
      [-(200000008/10^15), -(2/10^7), 2/10^7, 200000008/10^15] := by
    simp only [List.orderedInsert]
    rw [if_neg (by norm_num), if_neg (by norm_num), if_neg (by norm_num)]
  have hsort : List.insertionSort (· ≤ ·)
      [(200000008:ℝ)/10^15, -((200000008:ℝ)/10^15), (2:ℝ)/10^7, -((2:ℝ)/10^7)] =
      [-(200000008/10^15), -(2/10^7), 2/10^7, 200000008/10^15] := by
    simp only [List.insertionSort, List.orderedInsert]
    rw [if_neg (by norm_num : ¬ ((2:ℝ)/10^7) ≤ -(2/10^7))]
    rw [e2, e3]
  rw [hsort]
  rw [remove_duplicates_cons, if_neg (by simp), List.nil_append]
  rw [remove_duplicates_cons, if_pos ⟨-(200000008/10^15), List.mem_singleton_self _, by
    rw [show (-((2:ℝ)/10^7)) - -(200000008/10^15) = 8/10^15 by norm_num]
    rw [abs_of_pos (by norm_num : (0:ℝ) < 8/10^15)]
    norm_num⟩]
  rw [remove_duplicates_cons, if_neg (by
    push_neg
    intro e he
    rw [List.mem_singleton] at he
    subst he
    rw [show ((2:ℝ)/10^7) - -(200000008/10^15) = 400000008/10^15 by norm_num]
    rw [abs_of_pos (by norm_num : (0:ℝ) < 400000008/10^15)]
    norm_num)]
  rw [List.singleton_append]
  rw [remove_duplicates_cons, if_pos ⟨2/10^7, by simp, by
    rw [show ((200000008:ℝ)/10^15) - 2/10^7 = 8/10^15 by norm_num]
    rw [abs_of_pos (by norm_num : (0:ℝ) < 8/10^15)]
    norm_num⟩]
  simp only [remove_duplicates]

/-- Claim C4, counterexample: at `(a, b, c) = (1e14, -8.0000003200000064,
1.60000012800000256e-13)` the quartic has the four roots
`±2.00000008e-7, ±2e-7`; the deduplication pass keeps only
`[-2.00000008e-7, 2e-7]`, so `x = -2.00000008e-7` is returned while
`-x` is not. -/
theorem C4_counterexample :
    (-(200000008/10^15) : ℝ) ∈
      ((CedraSolver.mk 0 0).solve (.num (10^14)) (.num (-(80000003200000064/10^16)))
        (.num (160000012800000256/10^30))).2 ∧
    (-(200000008/10^15) : ℝ) ≠ 0 ∧
    ¬ (-(-(200000008/10^15)) : ℝ) ∈
      ((CedraSolver.mk 0 0).solve (.num (10^14)) (.num (-(80000003200000064/10^16)))
        (.num (160000012800000256/10^30))).2 := by
  have hval : ¬ |(10^14:ℝ)| < 1e-16 := by
    rw [abs_of_pos (by norm_num : (0:ℝ) < 10^14)]
    norm_num
  have hres : ((CedraSolver.mk 0 0).solve (.num (10^14))
      (.num (-(80000003200000064/10^16))) (.num (160000012800000256/10^30))).2 =
      [-(200000008/10^15), 2/10^7] := by
    rw [solve_num_snd _ _ _ _ hval, c4_detect]
    show solve_general_case (10^14) (-(80000003200000064/10^16))
      (160000012800000256/10^30) = _
    exact c4_general
  refine ⟨by rw [hres]; simp, by norm_num, ?_⟩
  rw [hres]
  intro hmem
  rcases List.mem_cons.mp hmem with h | h
  · norm_num at h
  · rw [List.mem_singleton] at h
    norm_num at h
